import Mathlib

/-!
Verification development for the tdl-wrapper core (src/core.py, src/scheduler.py).

Filenames are modelled as lists of characters.  Directory listings are modelled
as ordered lists of (filename, size) pairs.  Manifest records mirror the JSON
message records consumed by the wrapper: optional integer fields with the
spellings the code probes (id / ID, date / Date / timestamp) and a file field
that is either absent, a bare string, or an object with an optional name.
Python truthiness (None and 0 are falsy, empty strings are falsy) is made
explicit wherever the source branches on it.
-/

abbrev FName := List Char

/-- Directory listing: files with sizes, in scan order (Path.rglob). -/
abbrev Dir := List (FName × Nat)

/-- Python truthiness of an optional integer: None and 0 are falsy. -/
def intTruthy : Option Int → Bool
  | none => false
  | some v => v != 0

/-- Embeds the Python expression `a or b` on optional integers. -/
def pyOrInt (a b : Option Int) : Option Int :=
  if intTruthy a then a else b

/-- Nonempty all-digit parse, the digits of Python int(). -/
def parseDigits : List Char → Option Nat
  | [] => none
  | l =>
    if l.all Char.isDigit then
      some (l.foldl (fun acc c => acc * 10 + (c.toNat - '0'.toNat)) 0)
    else none

/-- Embeds Python int(s) on the stems the code feeds it (after the underscore
strip no grouping underscores remain; filename stems carry no surrounding
whitespace), with an optional leading minus sign. -/
def parseIntChars : List Char → Option Int
  | '-' :: rest => (parseDigits rest).map (fun n => -(n : Int))
  | l => (parseDigits l).map (fun n => (n : Int))

/-- Embeds Python str(i) for an integer, as a character list. -/
def renderInt (i : Int) : FName := (toString i).toList

/-- Embeds `filename.rsplit(chr(46), 1)[0]`: the part before the last dot, or
the whole name when it contains no dot. -/
def stemBeforeLastDot (l : FName) : FName :=
  let n := l.length
  let r := l.reverse.findIdx (· == '.')
  if r < n then l.take (n - 1 - r) else l

/-- Embeds pathlib Path(name).suffix: the extension from the last dot, empty
when the dot is absent, leading, or trailing (CPython keeps the suffix only
when 0 < i < len(name) - 1 for the last dot index i). -/
def pathSuffix (l : FName) : FName :=
  let n := l.length
  let r := l.reverse.findIdx (· == '.')
  if r < n then
    let i := n - 1 - r
    if 0 < i ∧ i < n - 1 then l.drop i else []
  else []

/-- Embeds the collision-suffix strip used on filename stems:
`if chr(95) in stem: stem = stem.split(chr(95))[0]`. -/
def stripUnderscoreSuffix (l : FName) : FName :=
  if l.contains '_' then l.takeWhile (· != '_') else l

/-- The `file` field of a manifest record: absent, a bare filename string, or
an object carrying an optional name field. -/
inductive FileField
  | absent
  | str (name : FName)
  | obj (name : Option FName)
  deriving DecidableEq, Repr

/-- Python truthiness of the file field: absent and the empty string are
falsy; an object (a nonempty JSON dict in every manifest the tool emits) is
truthy. -/
def FileField.truthy : FileField → Bool
  | .absent => false
  | .str s => !s.isEmpty
  | .obj _ => true

/-- The name carried by the file field (string value, or dict lookup of name). -/
def FileField.nameOf : FileField → Option FName
  | .absent => none
  | .str s => some s
  | .obj n => n

/-- One manifest message record, with the alternative field spellings the
source probes. -/
structure Msg where
  idLower : Option Int := none
  idUpper : Option Int := none
  date : Option Int := none
  dateUpper : Option Int := none
  tsField : Option Int := none
  file : FileField := .absent
  deriving DecidableEq, Repr

abbrev Manifest := List Msg

/-- Embeds `msg.get(id) or msg.get(ID)`. -/
def Msg.msgId (m : Msg) : Option Int := pyOrInt m.idLower m.idUpper

/-- Embeds `msg.get(date) or msg.get(Date) or msg.get(timestamp)`. -/
def Msg.msgDate (m : Msg) : Option Int :=
  pyOrInt m.date (pyOrInt m.dateUpper m.tsField)

/-- Embeds the original-name extraction pattern used throughout core.py:
skip when the file field is falsy, then skip when the extracted name is falsy. -/
def Msg.origName? (m : Msg) : Option FName :=
  if m.file.truthy then
    match m.file.nameOf with
    | some s => if s.isEmpty then none else some s
    | none => none
  else none

/-- Embeds `_parse_export_file` on an already-parsed message list:
(message count, count of records with a truthy file field). -/
def countMessagesAndMedia (ms : Manifest) : Nat × Nat :=
  (ms.length, (ms.filter (fun m => m.file.truthy)).length)

/-- File count and total size of a directory (`_count_downloaded_files`). -/
def sizeSum (d : Dir) : Nat := (d.map (·.2)).sum

def countFiles (d : Dir) : Nat × Nat := (d.length, sizeSum d)

/-- Embeds the already-downloaded id extraction of `_filter_export_for_download`
(lines 892-908): stem before the last dot, collision suffix stripped, parsed
as an integer. -/
def filenameMsgId (f : FName) : Option Int :=
  parseIntChars (stripUnderscoreSuffix (stemBeforeLastDot f))

/-- The set (as a list) of already-downloaded message ids found on disk. -/
def downloadedIds (d : Dir) : List Int :=
  d.filterMap (fun e => filenameMsgId e.1)

/-- Embeds the skip condition of the filter loop (core.py lines 916-927):
`if has_file and message_id and message_id in downloaded_message_ids`. -/
def msgSkipped (ids : List Int) (m : Msg) : Bool :=
  m.file.truthy && intTruthy m.msgId && ids.contains (m.msgId.getD 0)

/-- The filter loop: kept records in order, and the skipped count. -/
def filterLoop (ids : List Int) : Manifest → Manifest × Nat
  | [] => ([], 0)
  | m :: rest =>
    let (k, s) := filterLoop ids rest
    if msgSkipped ids m then (k, s + 1) else (m :: k, s)

/-- Result of `_filter_export_for_download`: None (everything already
downloaded), the original manifest path, or a freshly written filtered file. -/
inductive FilterResult
  | allDownloaded
  | originalFile
  | filteredFile (ms : Manifest)
  deriving DecidableEq, Repr

/-- Embeds `_filter_export_for_download` (core.py lines 853-964) on a parsed
manifest: return None iff something was skipped and nothing remains, the
original file iff nothing was skipped, else the filtered record list. -/
def filterExport (ms : Manifest) (d : Dir) : FilterResult :=
  let ids := downloadedIds d
  let fl := filterLoop ids ms
  if 0 < fl.2 ∧ fl.1 = [] then .allDownloaded
  else if fl.2 = 0 then .originalFile
  else .filteredFile fl.1

/-- Embeds the three-way presence test of `_get_max_downloaded_timestamp`
(core.py lines 703-731): canonical-id stem comparison against str(id),
suffix match against the original name, then exact name match. -/
def msgIsDownloaded (dirNames : List FName) (mid : Int) (orig : FName) : Bool :=
  dirNames.any (fun f => stripUnderscoreSuffix (stemBeforeLastDot f) == renderInt mid)
  || dirNames.any (fun f => orig.isSuffixOf f)
  || dirNames.contains orig

/-- Embeds `_get_max_downloaded_timestamp` (core.py lines 634-750): the
maximum truthy timestamp among records whose file is confirmed on disk, None
when the directory is empty or no record matches. -/
def maxDownloadedTs (ms : Manifest) (d : Dir) : Option Int :=
  let dirNames := d.map (·.1)
  if dirNames.isEmpty then none
  else
    ms.foldl (fun acc m =>
      match m.origName?, m.msgId with
      | some orig, some mid =>
        if mid != 0 && msgIsDownloaded dirNames mid orig then
          match m.msgDate with
          | some t =>
            if t != 0 then
              match acc with
              | none => some t
              | some a => if t > a then some t else some a
            else acc
          | none => acc
        else acc
      | _, _ => acc) none

/-- The last record (by manifest order) carrying a truthy file field. -/
def lastFileMsg? (ms : Manifest) : Option Msg :=
  ms.reverse.find? (fun m => m.file.truthy)

/-- Embeds `_verify_download_complete` (core.py lines 752-851): a manifest
with no file-bearing record verifies as true; otherwise the last file-bearing
record must be present by canonical id, suffix, or exact name.  The
destination directory exists at every call site (it was created earlier in
`download_from_export`), so only its listing is modelled. -/
def verifyDownloadComplete (ms : Manifest) (d : Dir) : Bool :=
  match lastFileMsg? ms with
  | none => true
  | some msg =>
    let dirNames := d.map (·.1)
    let midOk :=
      match msg.msgId with
      | some i =>
        i != 0 && dirNames.any
          (fun f => stripUnderscoreSuffix (stemBeforeLastDot f) == renderInt i)
      | none => false
    let nameOk :=
      match msg.file.nameOf with
      | some orig =>
        !orig.isEmpty &&
          (dirNames.any (fun f => orig.isSuffixOf f) || dirNames.contains orig)
      | none => false
    midOk || nameOk

/-!
Canonical renaming (`_rename_files_by_timestamp`, core.py lines 966-1111).
The directory evolves while the snapshot taken at entry is iterated; each
snapshot entry is processed once, and a rename never clobbers another file
because the collision loop skips occupied names.
-/

/-- Dict insertion with Python semantics: an existing key keeps its position
and gets the new value, a fresh key is appended. -/
def upsertAssoc (l : List (FName × Int)) (k : FName) (v : Int) : List (FName × Int) :=
  if l.any (fun p => p.1 == k) then
    l.map (fun p => if p.1 == k then (k, v) else p)
  else l ++ [(k, v)]

/-- Embeds the file-to-id map build (core.py lines 1007-1036): original name
to message id, for records with a truthy file field, a truthy name and a
truthy message id. -/
def fileToId (ms : Manifest) : List (FName × Int) :=
  ms.foldl (fun acc m =>
    match m.origName?, m.msgId with
    | some orig, some mid => if mid != 0 then upsertAssoc acc orig mid else acc
    | _, _ => acc) []

/-- Embeds the match search of the rename loop (core.py lines 1054-1072):
first map entry whose original name is a suffix of the actual filename, then
an exact-name lookup.  Every stored id is nonzero, so the Python truthiness
test on matched_id coincides with matching at all. -/
def matchMsg (fti : List (FName × Int)) (fname : FName) : Option Int :=
  match fti.find? (fun p => p.1.isSuffixOf fname) with
  | some p => some p.2
  | none =>
    match fti.find? (fun p => p.1 == fname) with
    | some p => some p.2
    | none => none

/-- Candidate target names of the collision loop: id.ext, then id_1.ext,
id_2.ext and so on (core.py lines 1084-1093). -/
def candName (mid : Int) (ext : FName) : Nat → FName
  | 0 => renderInt mid ++ ext
  | Nat.succ n => renderInt mid ++ '_' :: (renderInt ((n : Int) + 1) ++ ext)

/-- The collision loop: advance while the candidate exists and is a different
file.  Fuel bounds the search; dir.length + 1 candidates cover every listing
encountered here. -/
def resolveLoop (dirNames : List FName) (fname : FName) (mid : Int) (ext : FName) :
    Nat → Nat → FName
  | 0, k => candName mid ext k
  | fuel + 1, k =>
    let c := candName mid ext k
    if dirNames.contains c && !(c == fname) then
      resolveLoop dirNames fname mid ext fuel (k + 1)
    else c

def resolveName (dirNames : List FName) (fname : FName) (mid : Int) (ext : FName) : FName :=
  resolveLoop dirNames fname mid ext (dirNames.length + 1) 0

/-- Rename of a single directory entry, preserving the size component. -/
def replaceFirst (old new : FName) : Dir → Dir
  | [] => []
  | e :: rest =>
    if e.1 == old then (new, e.2) :: rest else e :: replaceFirst old new rest

/-- One iteration of the rename loop over the snapshot (core.py 1054-1102):
skip unmatched files, compute the collision-free target, rename only when the
target differs from the current name. -/
def renameOne (fti : List (FName × Int)) (st : Nat × Dir) (f : FName × Nat) : Nat × Dir :=
  let mres := matchMsg fti f.1
  if intTruthy mres then
    let mid := mres.getD 0
    let ext := pathSuffix f.1
    let newName := resolveName (st.2.map (·.1)) f.1 mid ext
    if newName ≠ f.1 then (st.1 + 1, replaceFirst f.1 newName st.2) else st
  else st

/-- Embeds `_rename_files_by_timestamp`: returns the renamed count and the
resulting directory.  An empty file-to-id map returns 0 without touching the
directory (core.py line 1040). -/
def renameFiles (ms : Manifest) (d : Dir) : Nat × Dir :=
  let fti := fileToId ms
  if fti.isEmpty then (0, d)
  else d.foldl (renameOne fti) (0, d)

/-!
The download operation (`download_from_export`, core.py lines 296-612).
The external tool and the supervisor poll loop are modelled by their observable
outcome: the files the tool wrote before it stopped, and how the loop ended
(natural exit, idle kill, or total timeout).  Database writes are recorded as
an audit list of status updates for the owning DownloadRun.
-/

/-- How the supervisor loop ended (core.py lines 476-515). -/
inductive SupOutcome
  | naturalExit (code : Int)
  | idleKilled
  | totalTimeout
  deriving DecidableEq, Repr

inductive DlStatus
  | pending
  | running
  | completed
  | failed
  deriving DecidableEq, Repr

/-- One call to `update_download_status` for the run record. -/
structure DlUpdate where
  status : DlStatus
  files_count : Option Int := none
  total_size_bytes : Option Int := none
  hasError : Bool := false
  deriving DecidableEq, Repr

structure DlConfig where
  /-- downloads.rename_by_timestamp (default true). -/
  renameByTs : Bool := true
  deriving DecidableEq, Repr

/-- One invocation of `download_from_export`: the parsed manifest of the
export, the parsed manifests of prior completed exports of the same chat
(export_timestamp ascending, existing files only), the destination listing,
the files the external tool wrote before stopping, the supervisor outcome,
and the chat checkpoint before the run. -/
structure DlRun where
  manifest : Manifest
  priorManifests : List Manifest
  dirBefore : Dir
  toolWrites : List (FName × Nat)
  sup : SupOutcome
  chatTs : Option Int
  deriving Repr

/-- Local variable names assigned somewhere in the source body of
`download_from_export` (assignment targets, loop variables, imports and the
except-clause names of core.py lines 296-612). -/
def dlLocalNames : List String :=
  ["download_id", "session", "export_id", "export", "chat", "folder",
   "destination", "export_file", "export_id_final", "export_end_timestamp",
   "chat_db_id", "download", "existing_files", "existing_size", "all_exports",
   "total_renamed", "prev_export", "renamed", "filtered_export_file", "args",
   "log_dir", "log_file", "os", "cmd_line", "creationflags", "preexec_fn",
   "process", "last_log_size", "idle_seconds", "max_idle", "max_total",
   "total_seconds", "returncode", "current_size", "e", "duration", "Result",
   "result", "total_files", "total_size", "new_files", "new_size",
   "max_downloaded_timestamp", "Chat", "error_msg", "traceback",
   "error_details", "update_error"]

/-- Names read by the success-path completion log line (core.py line 574). -/
def successLogReads : List String := ["files_count", "total_size"]

/-- Whether the success-path completion log line can evaluate: each name it
reads must be bound.  With files_count never assigned in the function (and no
such module global or builtin), CPython raises NameError there, which the
catch-all except clause at line 595 turns into a failed-status update and a
False return. -/
def successLogOk : Bool :=
  successLogReads.all (fun v => dlLocalNames.contains v)

/-- Observable outcome of one `download_from_export` invocation. -/
structure DlOutcome where
  updates : List DlUpdate
  retVal : Bool
  dirAfter : Dir
  chatTsAfter : Option Int
  /-- Supervisor-judged returncode; none when the tool was never launched. -/
  judgedCode : Option Int
  deriving Repr

/-- Destination listing after the pre-download rename pass over all prior
completed exports (core.py lines 359-385). -/
def dlDirPre (cfg : DlConfig) (r : DlRun) : Dir :=
  if cfg.renameByTs then
    r.priorManifests.foldl (fun d m => (renameFiles m d).2) r.dirBefore
  else r.dirBefore

def dlFilterRes (cfg : DlConfig) (r : DlRun) : FilterResult :=
  filterExport r.manifest (dlDirPre cfg r)

/-- The manifest handed to the external tool: the original export when
nothing was filtered, else the filtered record list (core.py lines 387-405). -/
def dlFilteredMs (cfg : DlConfig) (r : DlRun) : Manifest :=
  match dlFilterRes cfg r with
  | .filteredFile l => l
  | _ => r.manifest

/-- Destination listing after the external tool stopped. -/
def dlDirTool (cfg : DlConfig) (r : DlRun) : Dir :=
  dlDirPre cfg r ++ r.toolWrites

/-- The returncode the supervisor loop settles on (core.py lines 476-515):
the natural exit code, 0 for an idle kill, and for a total timeout 0 exactly
when the last-file verification succeeds, else -1. -/
def dlReturncode (cfg : DlConfig) (r : DlRun) : Int :=
  match r.sup with
  | .naturalExit c => c
  | .idleKilled => 0
  | .totalTimeout =>
    if verifyDownloadComplete (dlFilteredMs cfg r) (dlDirTool cfg r) then 0 else -1

/-- Destination listing after the post-run rename pass (run both on success,
line 534, and on failure, line 580, against the filtered manifest). -/
def dlDirFinal (cfg : DlConfig) (r : DlRun) : Dir :=
  if cfg.renameByTs then (renameFiles (dlFilteredMs cfg r) (dlDirTool cfg r)).2
  else dlDirTool cfg r

/-- The checkpoint candidate computed on success (core.py line 557): the max
confirmed timestamp over the FULL export manifest against the final listing. -/
def dlMaxTs (cfg : DlConfig) (r : DlRun) : Option Int :=
  maxDownloadedTs r.manifest (dlDirFinal cfg r)

/-- Embeds `download_from_export` for an existing export record.  Paths:
nothing left after filtering finalizes completed with zero counts and returns
True (lines 390-400); a judged-success run renames, counts the delta,
finalizes completed, updates the checkpoint when the candidate is truthy,
then evaluates the completion log line - whose unbound files_count name
raises, so the except clause re-finalizes as failed and returns False (lines
529-612); a judged-failure run renames, finalizes failed and returns False
(lines 576-593). -/
def downloadFromExport (cfg : DlConfig) (r : DlRun) : DlOutcome :=
  let (existing_files, existing_size) := countFiles r.dirBefore
  if dlFilterRes cfg r = .allDownloaded then
    { updates := [{ status := .completed, files_count := some 0,
                    total_size_bytes := some 0 }],
      retVal := true, dirAfter := dlDirPre cfg r, chatTsAfter := r.chatTs,
      judgedCode := none }
  else
    let runningU : DlUpdate := { status := .running }
    let returncode := dlReturncode cfg r
    if returncode = 0 then
      let dir3 := dlDirFinal cfg r
      let (total_files, _total_size) := countFiles dir3
      let new_files : Int := (total_files : Int) - (existing_files : Int)
      let new_size : Int := (sizeSum dir3 : Int) - (existing_size : Int)
      let completedU : DlUpdate :=
        { status := .completed, files_count := some new_files,
          total_size_bytes := some new_size }
      let chatTs2 := if intTruthy (dlMaxTs cfg r) then dlMaxTs cfg r else r.chatTs
      if successLogOk then
        { updates := [runningU, completedU], retVal := true, dirAfter := dir3,
          chatTsAfter := chatTs2, judgedCode := some returncode }
      else
        { updates := [runningU, completedU, { status := .failed, hasError := true }],
          retVal := false, dirAfter := dir3, chatTsAfter := chatTs2,
          judgedCode := some returncode }
    else
      { updates := [runningU, { status := .failed, hasError := true }],
        retVal := false, dirAfter := dlDirFinal cfg r, chatTsAfter := r.chatTs,
        judgedCode := some returncode }

/-!
Export time window (`export_messages`, core.py lines 176-194), the scheduler
overlap guard and job-log lifecycle (scheduler.py lines 544-675 and 677-835),
the batch ordering (scheduler.py lines 385-440), and the download-job export
selection (scheduler.py lines 720-745).
-/

/-- Embeds the window-start computation for a call without an explicit start
(core.py lines 180-194): in incremental mode a truthy checkpoint yields
checkpoint + 1, else 0; non-incremental mode yields 0. -/
def exportStartTs (incremental : Bool) (chatTs : Option Int) : Int :=
  if incremental then
    if intTruthy chatTs then chatTs.getD 0 + 1 else 0
  else 0

/-- Embeds the window-end default (core.py lines 177-178): now. -/
def exportEndTs (now : Int) : Int := now

/-- Modelled from the claim text of C6, for comparison with exportStartTs:
start = max(checkpoint + 1, 0) when resuming incrementally (incremental mode
with a stored checkpoint), else 0. -/
def claimedExportStart (incremental : Bool) (chatTs : Option Int) : Int :=
  if incremental ∧ chatTs ≠ none then max (chatTs.getD 0 + 1) 0 else 0

/-- Status of a job execution log record. -/
inductive JStat
  | jrunning
  | jcompleted
  | jfailed
  deriving DecidableEq, Repr

/-- Scheduler-visible state: the in-flight key set guarded by the mutex, the
job execution logs (key, status) in creation order, and how many export / 
download run records the store holds. -/
structure SchedState where
  runningKeys : List String
  jobLogs : List (String × JStat)
  exportRecs : Nat
  downloadRecs : Nat
  deriving DecidableEq, Repr

/-- Events of the job lifecycle.  A trigger is the guarded entry of
run_sync_job / run_download_job: the membership test and insertion happen
atomically under the lock (scheduler.py lines 566-570, 698-702); createsRun
records whether the body reaches record creation (chat found and enabled).
A finish is the finally block together with the preceding finalization of the
job log (lines 607-673, 769-833). -/
inductive SchedEvent
  | trigger (k : String) (createsRun : Bool)
  | finish (k : String) (ok : Bool)
  deriving DecidableEq, Repr

/-- Whether a job log entry is an in-flight log for the key. -/
def isRunningFor (k : String) (p : String × JStat) : Bool :=
  p.1 == k && p.2 == .jrunning

/-- Finalize the first running log for the key, completed on ok else failed. -/
def finalizeFirst (k : String) (ok : Bool) : List (String × JStat) → List (String × JStat)
  | [] => []
  | p :: rest =>
    if isRunningFor k p then
      (p.1, if ok then .jcompleted else .jfailed) :: rest
    else p :: finalizeFirst k ok rest

/-- One scheduler step.  An overlapping trigger is a pure no-op (log and
return, scheduler.py lines 567-569): no job log, no export run, no download
run is created. -/
def schedStep : SchedEvent → SchedState → SchedState
  | .trigger k c, s =>
    if k ∈ s.runningKeys then s
    else
      { runningKeys := k :: s.runningKeys,
        jobLogs := if c then s.jobLogs ++ [(k, .jrunning)] else s.jobLogs,
        exportRecs := s.exportRecs + (if c then 1 else 0),
        downloadRecs := s.downloadRecs + (if c then 1 else 0) }
  | .finish k ok, s =>
    { runningKeys := s.runningKeys.erase k,
      jobLogs := finalizeFirst k ok s.jobLogs,
      exportRecs := s.exportRecs,
      downloadRecs := s.downloadRecs }

def schedRun (es : List SchedEvent) (s : SchedState) : SchedState :=
  es.foldl (fun st e => schedStep e st) s

/-- Number of in-flight (running) job logs for a key. -/
def runningLogCount (s : SchedState) (k : String) : Nat :=
  s.jobLogs.countP (isRunningFor k)

/-- Guard invariant: at most one in-flight job log per key, and an in-flight
log implies the key is held in the running set. -/
def SchedInv (s : SchedState) : Prop :=
  ∀ k, runningLogCount s k ≤ 1 ∧ (1 ≤ runningLogCount s k → k ∈ s.runningKeys)

/-- Trace events of one batch tick. -/
inductive BatchEvent
  | exportEv (c : Nat)
  | downloadEv (c : Nat)
  deriving DecidableEq, Repr

def BatchEvent.chatOf : BatchEvent → Nat
  | .exportEv c => c
  | .downloadEv c => c

/-- The jobs one chat contributes in the batch loop body (scheduler.py lines
405-436): its sync job when scheduled for sync, then its download job when
scheduled for download. -/
def chatEvents (syncIds dlIds : List Nat) (c : Nat) : List BatchEvent :=
  (if c ∈ syncIds then [.exportEv c] else [])
    ++ (if c ∈ dlIds then [.downloadEv c] else [])

/-- Embeds `_run_batch_sync_and_download`: iterate the union list, emitting
the jobs of each chat in turn before moving to the next chat. -/
def batchTrace (syncIds dlIds allIds : List Nat) : List BatchEvent :=
  allIds.flatMap (chatEvents syncIds dlIds)

/-- The union list built by `list(set(sync_chat_ids + download_chat_ids))`
(scheduler.py line 397): duplicate-free, containing exactly the chats of
either input list, in an unspecified order. -/
def isUnionList (allIds syncIds dlIds : List Nat) : Prop :=
  allIds.Nodup ∧ (∀ x ∈ syncIds, x ∈ allIds) ∧ (∀ x ∈ dlIds, x ∈ allIds) ∧
    (∀ x ∈ allIds, x ∈ syncIds ∨ x ∈ dlIds)

/-- Lifecycle status of a stored run record. -/
inductive RunStatus
  | pending
  | running
  | completed
  | failed
  deriving DecidableEq, Repr

structure ExportRec where
  id : Nat
  chatId : Nat
  status : RunStatus
  mediaCount : Nat
  deriving DecidableEq, Repr

structure DownloadRec where
  exportId : Nat
  status : RunStatus
  deriving DecidableEq, Repr

structure StoreState where
  exports : List ExportRec
  downloads : List DownloadRec
  deriving DecidableEq, Repr

/-- Embeds the export selection of run_download_job (scheduler.py lines
720-724): filter by chat, order by id descending, take the first - the
record with the maximal id, with no condition on its status. -/
def pickLater (c : Nat) (acc : Option ExportRec) (e : ExportRec) : Option ExportRec :=
  if e.chatId = c then
    match acc with
    | none => some e
    | some a => if e.id > a.id then some e else some a
  else acc

def lastExportFor (s : StoreState) (c : Nat) : Option ExportRec :=
  s.exports.foldl (pickLater c) none

/-- What run_download_job does after the enabled-chat preamble (scheduler.py
lines 720-753): skip when no export exists, skip when the selected export has
media_count 0, skip when a completed download for it already exists, else
attempt the download of the selected export. -/
inductive DlJobAction
  | skipNoExport
  | skipNoMedia
  | skipAlreadyDone
  | attempt (exportId : Nat)
  deriving DecidableEq, Repr

def downloadJobAction (s : StoreState) (c : Nat) : DlJobAction :=
  match lastExportFor s c with
  | none => .skipNoExport
  | some e =>
    if e.mediaCount = 0 then .skipNoMedia
    else if s.downloads.any (fun d => d.exportId = e.id && d.status == .completed) then
      .skipAlreadyDone
    else .attempt e.id

/-!
Helper lemmas shared by the claim theorems below.
-/

theorem successLogOk_eq_false : successLogOk = false := by decide

theorem filterLoop_fst (ids : List Int) (ms : Manifest) :
    (filterLoop ids ms).1 = ms.filter (fun m => !msgSkipped ids m) := by
  induction ms with
  | nil => rfl
  | cons m rest ih =>
    simp only [filterLoop, List.filter_cons]
    cases h : msgSkipped ids m <;> simp [h, ih]

theorem filterLoop_snd (ids : List Int) (ms : Manifest) :
    (filterLoop ids ms).2 = (ms.filter (fun m => msgSkipped ids m)).length := by
  induction ms with
  | nil => rfl
  | cons m rest ih =>
    simp only [filterLoop, List.filter_cons]
    cases h : msgSkipped ids m <;> simp [h, ih]

theorem replaceFirst_length (o n : FName) (d : Dir) :
    (replaceFirst o n d).length = d.length := by
  induction d with
  | nil => rfl
  | cons e rest ih =>
    simp only [replaceFirst]
    split <;> simp [ih]

theorem replaceFirst_sizeSum (o n : FName) (d : Dir) :
    sizeSum (replaceFirst o n d) = sizeSum d := by
  induction d with
  | nil => rfl
  | cons e rest ih =>
    simp only [replaceFirst]
    split <;> simp [sizeSum, ih] <;> simp [sizeSum] at ih <;> omega

theorem renameOne_snd_length (fti : List (FName × Int)) (st : Nat × Dir) (f : FName × Nat) :
    ((renameOne fti st f).2).length = st.2.length := by
  simp only [renameOne]
  split
  · split
    · exact replaceFirst_length _ _ _
    · rfl
  · rfl

theorem renameOne_snd_sizeSum (fti : List (FName × Int)) (st : Nat × Dir) (f : FName × Nat) :
    sizeSum (renameOne fti st f).2 = sizeSum st.2 := by
  simp only [renameOne]
  split
  · split
    · exact replaceFirst_sizeSum _ _ _
    · rfl
  · rfl

theorem foldl_renameOne_length (fti : List (FName × Int)) :
    ∀ (l : List (FName × Nat)) (st : Nat × Dir),
      ((l.foldl (renameOne fti) st).2).length = st.2.length := by
  intro l
  induction l with
  | nil => intro st; rfl
  | cons f rest ih =>
    intro st
    simp only [List.foldl_cons]
    rw [ih, renameOne_snd_length]

theorem foldl_renameOne_sizeSum (fti : List (FName × Int)) :
    ∀ (l : List (FName × Nat)) (st : Nat × Dir),
      sizeSum (l.foldl (renameOne fti) st).2 = sizeSum st.2 := by
  intro l
  induction l with
  | nil => intro st; rfl
  | cons f rest ih =>
    intro st
    simp only [List.foldl_cons]
    rw [ih, renameOne_snd_sizeSum]

theorem renameFiles_snd_length (ms : Manifest) (d : Dir) :
    ((renameFiles ms d).2).length = d.length := by
  unfold renameFiles
  by_cases h : (fileToId ms).isEmpty
  · simp [h]
  · simp [h, foldl_renameOne_length]

theorem renameFiles_snd_sizeSum (ms : Manifest) (d : Dir) :
    sizeSum (renameFiles ms d).2 = sizeSum d := by
  unfold renameFiles
  by_cases h : (fileToId ms).isEmpty
  · simp [h]
  · simp [h, foldl_renameOne_sizeSum]

theorem foldl_rename_manifests_length (l : List Manifest) :
    ∀ d : Dir, (l.foldl (fun d m => (renameFiles m d).2) d).length = d.length := by
  induction l with
  | nil => intro d; rfl
  | cons m rest ih =>
    intro d
    simp only [List.foldl_cons]
    rw [ih, renameFiles_snd_length]

theorem foldl_rename_manifests_sizeSum (l : List Manifest) :
    ∀ d : Dir, sizeSum (l.foldl (fun d m => (renameFiles m d).2) d) = sizeSum d := by
  induction l with
  | nil => intro d; rfl
  | cons m rest ih =>
    intro d
    simp only [List.foldl_cons]
    rw [ih, renameFiles_snd_sizeSum]

theorem dlDirPre_length (cfg : DlConfig) (r : DlRun) :
    (dlDirPre cfg r).length = r.dirBefore.length := by
  unfold dlDirPre
  split
  · exact foldl_rename_manifests_length _ _
  · rfl

theorem dlDirPre_sizeSum (cfg : DlConfig) (r : DlRun) :
    sizeSum (dlDirPre cfg r) = sizeSum r.dirBefore := by
  unfold dlDirPre
  split
  · exact foldl_rename_manifests_sizeSum _ _
  · rfl

theorem dlDirFinal_length (cfg : DlConfig) (r : DlRun) :
    (dlDirFinal cfg r).length = r.dirBefore.length + r.toolWrites.length := by
  unfold dlDirFinal dlDirTool
  split
  · rw [renameFiles_snd_length, List.length_append, dlDirPre_length]
  · rw [List.length_append, dlDirPre_length]

theorem dlDirFinal_sizeSum (cfg : DlConfig) (r : DlRun) :
    sizeSum (dlDirFinal cfg r) = sizeSum r.dirBefore + sizeSum r.toolWrites := by
  unfold dlDirFinal dlDirTool
  have happ : ∀ a b : Dir, sizeSum (a ++ b) = sizeSum a + sizeSum b := by
    intro a b
    simp [sizeSum]
  split
  · rw [renameFiles_snd_sizeSum, happ, dlDirPre_sizeSum]
  · rw [happ, dlDirPre_sizeSum]

theorem lastExportFor_aux (c : Nat) :
    ∀ (l : List ExportRec) (acc : Option ExportRec) (e : ExportRec),
      l.foldl (pickLater c) acc = some e →
      ((e ∈ l ∧ e.chatId = c) ∨ acc = some e) ∧
      (∀ f ∈ l, f.chatId = c → f.id ≤ e.id) ∧
      (∀ a, acc = some a → a.id ≤ e.id) := by
  intro l
  induction l with
  | nil =>
    intro acc e h
    simp only [List.foldl_nil] at h
    refine ⟨Or.inr h, by simp, fun a ha => ?_⟩
    rw [ha] at h
    cases h
    exact le_refl _
  | cons g rest ih =>
    intro acc e h
    simp only [List.foldl_cons] at h
    obtain ⟨h1, h2, h3⟩ := ih (pickLater c acc g) e h
    have hstep : ∀ a, pickLater c acc g = some a →
        (a = g ∧ g.chatId = c) ∨ acc = some a := by
      intro a ha
      unfold pickLater at ha
      split at ha
      · rename_i hg
        cases hacc : acc with
        | none => rw [hacc] at ha; cases ha; exact Or.inl ⟨rfl, hg⟩
        | some b =>
          rw [hacc] at ha
          simp only at ha
          split at ha
          · cases ha; exact Or.inl ⟨rfl, hg⟩
          · cases ha; exact Or.inr rfl
      · exact Or.inr ha
    refine ⟨?_, ?_, ?_⟩
    · rcases h1 with ⟨hmem, hc⟩ | hacc
      · exact Or.inl ⟨List.mem_cons_of_mem _ hmem, hc⟩
      · rcases hstep e hacc with ⟨rfl, hc⟩ | hacc2
        · exact Or.inl ⟨List.mem_cons_self _ _, hc⟩
        · exact Or.inr hacc2
    · intro f hf hfc
      rcases List.mem_cons.1 hf with rfl | hfr
      · -- the head: pickLater keeps an id at least f.id when f.chatId = c
        unfold pickLater at h3
        rw [if_pos hfc] at h3
        cases hacc : acc with
        | none =>
          rw [hacc] at h3
          exact h3 f rfl
        | some b =>
          rw [hacc] at h3
          simp only at h3
          by_cases hgt : f.id > b.id
          · rw [if_pos hgt] at h3
            exact h3 f rfl
          · rw [if_neg hgt] at h3
            have hb := h3 b rfl
            omega
      · exact h2 f hfr hfc
    · intro a ha
      unfold pickLater at h3
      by_cases hgc : g.chatId = c
      · rw [if_pos hgc] at h3
        rw [ha] at h3
        simp only at h3
        by_cases hgt : g.id > a.id
        · rw [if_pos hgt] at h3
          have := h3 g rfl
          omega
        · rw [if_neg hgt] at h3
          exact h3 a rfl
      · rw [if_neg hgc] at h3
        exact h3 a ha

/-- Claim C10 counterexample: a store whose only export for the chat (id 5,
status failed, media count 3) already has a completed download.  The job is
skipped although an export exists and its media count is nonzero, refuting
the claim that only those two conditions cause a skip; the selection itself
does pick the failed export (no status filter). -/
theorem c10_skip_already_downloaded :
    downloadJobAction ⟨[⟨5, 1, .failed, 3⟩], [⟨5, .completed⟩]⟩ 1 = .skipAlreadyDone ∧
    lastExportFor ⟨[⟨5, 1, .failed, 3⟩], [⟨5, .completed⟩]⟩ 1 = some ⟨5, 1, .failed, 3⟩ ∧
    (3 : Nat) ≠ 0 ∧
    downloadJobAction ⟨[⟨5, 1, .failed, 3⟩], [⟨5, .completed⟩]⟩ 1 ≠ .attempt 5 := by
  decide

/-- Claim C10 (amended): the download job selects the export with the maximal
record id for the chat with no status filter (a pending, running or failed
export can be selected), and it attempts the download exactly when such an
export exists, its media count is nonzero, and no completed DownloadRun for
it is stored; otherwise it skips (no export, zero media, or already
downloaded). -/
theorem c10_selection_amended (s : StoreState) (c : Nat) (e f : ExportRec) (eid : Nat) :
    (lastExportFor s c = some e →
      e ∈ s.exports ∧ e.chatId = c ∧ (f ∈ s.exports → f.chatId = c → f.id ≤ e.id)) ∧
    (downloadJobAction s c = .attempt eid ↔
      ∃ e2, lastExportFor s c = some e2 ∧ e2.id = eid ∧ e2.mediaCount ≠ 0 ∧
        (s.downloads.any (fun dl => dl.exportId = e2.id && dl.status == .completed)) = false) := by
  constructor
  · intro h
    obtain ⟨h1, h2, _⟩ := lastExportFor_aux c s.exports none e h
    rcases h1 with ⟨hmem, hc⟩ | hnone
    · exact ⟨hmem, hc, fun hf hfc => h2 f hf hfc⟩
    · cases hnone
  · constructor
    · intro h
      unfold downloadJobAction at h
      cases hl : lastExportFor s c with
      | none => rw [hl] at h; cases h
      | some e2 =>
        rw [hl] at h
        simp only at h
        by_cases hm : e2.mediaCount = 0
        · rw [if_pos hm] at h; cases h
        · rw [if_neg hm] at h
          by_cases hd : (s.downloads.any
              (fun dl => dl.exportId = e2.id && dl.status == .completed)) = true
          · rw [if_pos hd] at h; cases h
          · rw [if_neg hd] at h
            cases h
            exact ⟨e2, rfl, rfl, hm, by simpa using hd⟩
    · rintro ⟨e2, hl, rfl, hm, hd⟩
      unfold downloadJobAction
      rw [hl]
      simp only [if_neg hm]
      rw [if_neg (by simp [hd])]

/-- Claim C10 witness: a chat with a pending export (id 7, media 2) and no
downloads has its download attempted, via the amended characterization. -/
theorem c10_selection_amended_w :
    downloadJobAction ⟨[⟨7, 1, .pending, 2⟩], []⟩ 1 = .attempt 7 :=
  (c10_selection_amended ⟨[⟨7, 1, .pending, 2⟩], []⟩ 1 ⟨7, 1, .pending, 2⟩
    ⟨7, 1, .pending, 2⟩ 7).2.mpr ⟨⟨7, 1, .pending, 2⟩, by decide, by decide, by decide, by decide⟩

/-- Claim C6 counterexample: with a negative stored checkpoint (-5) in
incremental mode, the code computes start = -4 while the claimed formula
max(checkpoint + 1, 0) gives 0 - the code never clamps the start at 0. -/
theorem c6_negative_checkpoint_no_clamp :
    exportStartTs true (some (-5)) = -4 ∧ claimedExportStart true (some (-5)) = 0 ∧
    exportStartTs true (some (-5)) ≠ claimedExportStart true (some (-5)) := by decide

/-- Claim C6 (amended): without an explicit range, the window end defaults to
now, and the start is checkpoint + 1 when incremental with a truthy (present
and nonzero) checkpoint - which agrees with max(checkpoint + 1, 0) whenever
the checkpoint is positive - and 0 otherwise (no checkpoint, zero checkpoint,
or non-incremental mode); no clamp at 0 is applied. -/
theorem c6_window_amended (t now : Int) (ts : Option Int) (h : 0 < t) :
    exportStartTs true (some t) = max (t + 1) 0 ∧
    exportStartTs true none = 0 ∧
    exportStartTs true (some 0) = 0 ∧
    exportStartTs false ts = 0 ∧
    exportEndTs now = now := by
  refine ⟨?_, rfl, by decide, by simp [exportStartTs], rfl⟩
  have ht : (t != 0) = true := by
    simp only [bne_iff_ne, ne_eq]
    omega
  simp only [exportStartTs, intTruthy, ht, if_true, Option.getD_some]
  rw [max_eq_left (by omega)]

/-- Claim C6 witness: the amended window facts at checkpoint 5, now 77,
and a non-incremental call with checkpoint 9. -/
theorem c6_window_amended_w :
    exportStartTs true (some 5) = max ((5 : Int) + 1) 0 ∧
    exportStartTs true none = 0 ∧
    exportStartTs true (some 0) = 0 ∧
    exportStartTs false (some 9) = 0 ∧
    exportEndTs 77 = 77 :=
  c6_window_amended 5 77 (some 9) (by decide)

/-- Claim C3 counterexample: manifest with one file-bearing record (id 1,
file a.jpg) that is satisfied on disk by 1.jpg, plus one record without a
file reference (id 2).  Every record carrying a file reference is satisfied,
yet the filter does not return None: the file-less record keeps the filtered
manifest nonempty. -/
theorem c3_fileless_record_blocks_none :
    filterExport
        [{ idLower := some 1, date := some 1000, file := .str "a.jpg".toList },
         { idLower := some 2, date := some 2000 }]
        [("1.jpg".toList, 4)]
      = .filteredFile [{ idLower := some 2, date := some 2000 }] ∧
    filterExport
        [{ idLower := some 1, date := some 1000, file := .str "a.jpg".toList },
         { idLower := some 2, date := some 2000 }]
        [("1.jpg".toList, 4)]
      ≠ .allDownloaded ∧
    ({ idLower := some 1, date := some 1000,
       file := .str "a.jpg".toList } : Msg).file.truthy = true ∧
    (1 : Int) ∈ downloadedIds [("1.jpg".toList, 4)] ∧
    ({ idLower := some 2, date := some 2000 } : Msg).file.truthy = false := by
  decide

/-- Claim C3 (amended): the filter returns None exactly when the manifest is
nonempty and every record is skipped - a record is skipped exactly when it
has a truthy file reference, a truthy message id, and that id is in the
on-disk satisfied set, so records without a file reference are always kept;
it returns the original path exactly when no record is skipped; and a
filtered manifest consists exactly of the non-skipped records, which exist
together with at least one skipped record. -/
theorem c3_filter_characterization (ms : Manifest) (d : Dir) :
    (filterExport ms d = .allDownloaded ↔
      ms ≠ [] ∧ ∀ m ∈ ms, msgSkipped (downloadedIds d) m = true) ∧
    (filterExport ms d = .originalFile ↔
      ∀ m ∈ ms, msgSkipped (downloadedIds d) m = false) ∧
    (∀ l, filterExport ms d = .filteredFile l →
      l = ms.filter (fun m => !msgSkipped (downloadedIds d) m) ∧
      (∃ m ∈ ms, msgSkipped (downloadedIds d) m = true) ∧
      (∃ m ∈ ms, msgSkipped (downloadedIds d) m = false)) := by
  have hfst := filterLoop_fst (downloadedIds d) ms
  have hsnd := filterLoop_snd (downloadedIds d) ms
  have hallskip : (filterLoop (downloadedIds d) ms).1 = [] ↔
      ∀ m ∈ ms, msgSkipped (downloadedIds d) m = true := by
    rw [hfst, List.filter_eq_nil]
    constructor
    · intro h m hm
      simpa using h m hm
    · intro h m hm
      simp [h m hm]
  have hpos : 0 < (filterLoop (downloadedIds d) ms).2 ↔
      ∃ m ∈ ms, msgSkipped (downloadedIds d) m = true := by
    rw [hsnd, List.length_pos_iff_exists_mem]
    constructor
    · rintro ⟨m, hm⟩
      rw [List.mem_filter] at hm
      exact ⟨m, hm.1, hm.2⟩
    · rintro ⟨m, hm, hsk⟩
      exact ⟨m, List.mem_filter.2 ⟨hm, hsk⟩⟩
  have hzero : (filterLoop (downloadedIds d) ms).2 = 0 ↔
      ∀ m ∈ ms, msgSkipped (downloadedIds d) m = false := by
    rw [hsnd, List.length_eq_zero, List.filter_eq_nil]
    constructor
    · intro h m hm
      simpa using h m hm
    · intro h m hm
      simp [h m hm]
  by_cases h1 : 0 < (filterLoop (downloadedIds d) ms).2 ∧ (filterLoop (downloadedIds d) ms).1 = []
  · have he : filterExport ms d = .allDownloaded := by
      simp only [filterExport]
      rw [if_pos h1]
    refine ⟨?_, ?_, ?_⟩
    · rw [he]
      refine iff_of_true rfl ⟨?_, hallskip.1 h1.2⟩
      obtain ⟨m, hm, _⟩ := hpos.1 h1.1
      exact List.ne_nil_of_mem hm
    · rw [he]
      refine iff_of_false (by decide) ?_
      intro hall
      obtain ⟨m, hm, hsk⟩ := hpos.1 h1.1
      rw [hall m hm] at hsk
      cases hsk
    · intro l hl
      rw [he] at hl
      cases hl
  · by_cases h2 : (filterLoop (downloadedIds d) ms).2 = 0
    · have he : filterExport ms d = .originalFile := by
        simp only [filterExport]
        rw [if_neg h1, if_pos h2]
      refine ⟨?_, ?_, ?_⟩
      · rw [he]
        refine iff_of_false (by decide) ?_
        rintro ⟨hne, hall⟩
        obtain ⟨m, hm⟩ := List.exists_mem_of_ne_nil ms hne
        have hf := hzero.1 h2 m hm
        rw [hall m hm] at hf
        cases hf
      · rw [he]
        exact iff_of_true rfl (hzero.1 h2)
      · intro l hl
        rw [he] at hl
        cases hl
    · have hposs : 0 < (filterLoop (downloadedIds d) ms).2 := Nat.pos_of_ne_zero h2
      have hne1 : (filterLoop (downloadedIds d) ms).1 ≠ [] := by
        intro hnil
        exact h1 ⟨hposs, hnil⟩
      have he : filterExport ms d = .filteredFile (filterLoop (downloadedIds d) ms).1 := by
        simp only [filterExport]
        rw [if_neg h1, if_neg h2]
      refine ⟨?_, ?_, ?_⟩
      · rw [he]
        refine iff_of_false (by intro h; cases h) ?_
        rintro ⟨hne, hall⟩
        exact hne1 (hallskip.2 hall)
      · rw [he]
        refine iff_of_false (by intro h; cases h) ?_
        intro hall
        exact h2 (hzero.2 hall)
      · intro l hl
        rw [he] at hl
        cases hl
        refine ⟨hfst, hpos.1 hposs, ?_⟩
        obtain ⟨m, hm⟩ := List.exists_mem_of_ne_nil _ hne1
        rw [hfst, List.mem_filter] at hm
        exact ⟨m, hm.1, by simpa using hm.2⟩

/-- Claim C3 witness: the spec scenario - two file-bearing records, 1.jpg on
disk; by the amended characterization the filtered manifest is exactly the
non-skipped records, here the single record with id 2. -/
theorem c3_filter_characterization_w :
    [{ idLower := some 2, date := some 2000, file := .str "b.jpg".toList }] =
      List.filter (fun m => !msgSkipped (downloadedIds [("1.jpg".toList, 1)]) m)
        [{ idLower := some 1, date := some 1000, file := .str "a.jpg".toList },
         { idLower := some 2, date := some 2000, file := .str "b.jpg".toList }] :=
  ((c3_filter_characterization
    [{ idLower := some 1, date := some 1000, file := .str "a.jpg".toList },
     { idLower := some 2, date := some 2000, file := .str "b.jpg".toList }]
    [("1.jpg".toList, 1)]).2.2
    [{ idLower := some 2, date := some 2000, file := .str "b.jpg".toList }] (by decide)).1

theorem chatEvents_chatOf (syncIds dlIds : List Nat) (c : Nat) :
    ∀ e ∈ chatEvents syncIds dlIds c, BatchEvent.chatOf e = c := by
  intro e he
  simp only [chatEvents, List.mem_append] at he
  rcases he with h | h <;>
  · split at h
    · rw [List.mem_singleton.1 h]
      rfl
    · cases h

theorem mem_batchTrace_chat (syncIds dlIds allIds : List Nat) :
    ∀ e ∈ batchTrace syncIds dlIds allIds, BatchEvent.chatOf e ∈ allIds := by
  intro e he
  unfold batchTrace at he
  obtain ⟨a, ha, hea⟩ := List.mem_flatMap.1 he
  rw [chatEvents_chatOf _ _ _ e hea]
  exact ha

theorem c5_batch_order_aux (syncIds dlIds : List Nat) (c : Nat)
    (hs : c ∈ syncIds) (hd : c ∈ dlIds) :
    ∀ allIds : List Nat, allIds.Nodup → c ∈ allIds →
      ∃ A B, batchTrace syncIds dlIds allIds =
          A ++ [BatchEvent.exportEv c, BatchEvent.downloadEv c] ++ B ∧
        (∀ e ∈ A, BatchEvent.chatOf e ≠ c) ∧ (∀ e ∈ B, BatchEvent.chatOf e ≠ c) := by
  intro allIds
  induction allIds with
  | nil =>
    intro _ hc
    cases hc
  | cons a rest ih =>
    intro hnd hc
    have hanin : a ∉ rest := (List.nodup_cons.1 hnd).1
    have hnd' : rest.Nodup := (List.nodup_cons.1 hnd).2
    rcases List.mem_cons.1 hc with rfl | hcr
    · refine ⟨[], batchTrace syncIds dlIds rest, ?_, by simp, ?_⟩
      · simp only [batchTrace, List.flatMap_cons, List.nil_append]
        congr 1
        unfold chatEvents
        rw [if_pos hs, if_pos hd]
        rfl
      · intro e he
        have hmem := mem_batchTrace_chat syncIds dlIds rest e he
        intro heq
        rw [heq] at hmem
        exact hanin hmem
    · obtain ⟨A, B, hEq, hA, hB⟩ := ih hnd' hcr
      refine ⟨chatEvents syncIds dlIds a ++ A, B, ?_, ?_, hB⟩
      · simp only [batchTrace, List.flatMap_cons]
        unfold batchTrace at hEq
        rw [hEq]
        simp [List.append_assoc]
      · intro e he
        rcases List.mem_append.1 he with h | h
        · rw [chatEvents_chatOf _ _ _ e h]
          intro heq
          rw [heq] at h
          exact hanin (heq ▸ hcr)
        · exact hA e h

/-- Claim C5: in one batch tick over the union of chats needing work, a chat
scheduled for both sync and download has its export event immediately
followed by its download event in the execution trace - the export finishes
before the download starts, and no job of another chat runs between them. -/
theorem c5_batch_order (syncIds dlIds allIds : List Nat) (c : Nat)
    (hu : isUnionList allIds syncIds dlIds) (hs : c ∈ syncIds) (hd : c ∈ dlIds) :
    ∃ A B, batchTrace syncIds dlIds allIds =
        A ++ [BatchEvent.exportEv c, BatchEvent.downloadEv c] ++ B ∧
      (∀ e ∈ A, BatchEvent.chatOf e ≠ c) ∧ (∀ e ∈ B, BatchEvent.chatOf e ≠ c) :=
  c5_batch_order_aux syncIds dlIds c hs hd allIds hu.1 (hu.2.1 c hs)

/-- Claim C5 witness: chat 2 download-only, chat 1 sync+download, union list
iterated as [2, 1]: the export of chat 1 is immediately followed by its download. -/
theorem c5_batch_order_w :
    ∃ A B, batchTrace [1] [1, 2] [2, 1] =
        A ++ [BatchEvent.exportEv 1, BatchEvent.downloadEv 1] ++ B ∧
      (∀ e ∈ A, BatchEvent.chatOf e ≠ 1) ∧ (∀ e ∈ B, BatchEvent.chatOf e ≠ 1) :=
  c5_batch_order [1] [1, 2] [2, 1] 1 ⟨by decide, by decide, by decide, by decide⟩
    (by decide) (by decide)

theorem finalizeFirst_countP_self (k : String) (ok : Bool) (l : List (String × JStat)) :
    (finalizeFirst k ok l).countP (isRunningFor k) = l.countP (isRunningFor k) - 1 := by
  induction l with
  | nil => rfl
  | cons p rest ih =>
    by_cases hp : isRunningFor k p
    · rw [finalizeFirst, if_pos hp]
      have hnewf : isRunningFor k (p.1, if ok then JStat.jcompleted else JStat.jfailed) = false := by
        cases ok <;> simp [isRunningFor]
      simp only [List.countP_cons, hnewf, hp]
      simp
    · have hpf : isRunningFor k p = false := by
        revert hp
        cases isRunningFor k p <;> simp
      rw [finalizeFirst, if_neg hp]
      simp only [List.countP_cons, hpf, ih]
      simp

theorem finalizeFirst_countP_other (k q : String) (ok : Bool) (l : List (String × JStat))
    (hqk : q ≠ k) :
    (finalizeFirst k ok l).countP (isRunningFor q) = l.countP (isRunningFor q) := by
  induction l with
  | nil => rfl
  | cons p rest ih =>
    by_cases hp : isRunningFor k p
    · rw [finalizeFirst, if_pos hp]
      have hp1 : p.1 = k := by
        simp only [isRunningFor, Bool.and_eq_true, beq_iff_eq] at hp
        exact hp.1
      have hkq2 : (k == q) = false := beq_eq_false_iff_ne.2 (fun h => hqk h.symm)
      have h1 : isRunningFor q (p.1, if ok then JStat.jcompleted else JStat.jfailed) = false := by
        simp [isRunningFor, hp1, hkq2]
      have h2 : isRunningFor q p = false := by
        simp [isRunningFor, hp1, hkq2]
      simp only [List.countP_cons, h1, h2]
    · rw [finalizeFirst, if_neg hp]
      simp only [List.countP_cons, ih]

/-- Claim C4: triggering a (chat, job-type) key that is already in the
in-flight set is a complete no-op (no JobExecutionLog, no ExportRun, no
DownloadRun is created and nothing else changes); every step preserves the
at-most-one-in-flight-log-per-key invariant; and the concrete
double-trigger-then-finish trace ends with exactly one job log for the key,
finalized as completed, and exactly one export and one download record. -/
theorem c4_overlap_guard (s1 s2 : SchedState) (k : String) (c : Bool) (e : SchedEvent)
    (hk : k ∈ s1.runningKeys) (hinv : SchedInv s2) :
    schedStep (.trigger k c) s1 = s1 ∧
    SchedInv (schedStep e s2) ∧
    schedRun [.trigger "sync_1" true, .trigger "sync_1" true, .finish "sync_1" true]
        ⟨[], [], 0, 0⟩ = ⟨[], [("sync_1", .jcompleted)], 1, 1⟩ := by
  refine ⟨by simp [schedStep, hk], ?_, by decide⟩
  cases e with
  | trigger q cb =>
    by_cases hq : q ∈ s2.runningKeys
    · simpa [schedStep, hq] using hinv
    · intro key
      simp only [schedStep, if_neg hq]
      have hcount : runningLogCount
          ⟨q :: s2.runningKeys,
           if cb then s2.jobLogs ++ [(q, .jrunning)] else s2.jobLogs,
           s2.exportRecs + (if cb then 1 else 0),
           s2.downloadRecs + (if cb then 1 else 0)⟩ key =
          runningLogCount s2 key +
            (if cb then (if isRunningFor key (q, .jrunning) then 1 else 0) else 0) := by
        cases cb <;> simp [runningLogCount, List.countP_append, List.countP_cons]
      rw [hcount]
      by_cases hkq : key = q
      · subst hkq
        have hzero : runningLogCount s2 key = 0 := by
          by_contra hnz
          exact hq ((hinv key).2 (Nat.one_le_iff_ne_zero.2 hnz))
        rw [hzero]
        constructor
        · cases cb <;> simp [isRunningFor]
        · intro _
          exact List.mem_cons_self _ _
      · have hqk2 : (q == key) = false := beq_eq_false_iff_ne.2 (fun h => hkq h.symm)
        have hfk : isRunningFor key (q, JStat.jrunning) = false := by
          simp [isRunningFor, hqk2]
        rw [hfk]
        have hsame : runningLogCount s2 key +
            (if cb then (if false = true then 1 else 0) else 0) = runningLogCount s2 key := by
          cases cb <;> simp
        rw [hsame]
        exact ⟨(hinv key).1, fun h => List.mem_cons_of_mem _ ((hinv key).2 h)⟩
  | finish q ok =>
    intro key
    simp only [schedStep]
    by_cases hkq : key = q
    · subst hkq
      have hc : runningLogCount
          ⟨s2.runningKeys.erase key, finalizeFirst key ok s2.jobLogs,
           s2.exportRecs, s2.downloadRecs⟩ key =
          runningLogCount s2 key - 1 := by
        simp [runningLogCount, finalizeFirst_countP_self]
      rw [hc]
      have hle := (hinv key).1
      exact ⟨by omega, fun h => absurd h (by omega)⟩
    · have hc : runningLogCount
          ⟨s2.runningKeys.erase q, finalizeFirst q ok s2.jobLogs,
           s2.exportRecs, s2.downloadRecs⟩ key =
          runningLogCount s2 key := by
        simp [runningLogCount, finalizeFirst_countP_other _ _ _ _ hkq]
      rw [hc]
      refine ⟨(hinv key).1, fun h => ?_⟩
      exact (List.mem_erase_of_ne hkq).2 ((hinv key).2 h)

/-- Claim C4 witness: the no-op trigger at a state holding the key, invariant
preservation across a finish step from the empty state, and the concrete
double-trigger trace, all at concrete inputs. -/
theorem c4_overlap_guard_w :
    schedStep (.trigger "sync_1" true)
        ⟨["sync_1"], [("sync_1", .jrunning)], 1, 1⟩ =
      ⟨["sync_1"], [("sync_1", .jrunning)], 1, 1⟩ ∧
    SchedInv (schedStep (.finish "sync_1" true) ⟨[], [], 0, 0⟩) ∧
    schedRun [.trigger "sync_1" true, .trigger "sync_1" true, .finish "sync_1" true]
        ⟨[], [], 0, 0⟩ = ⟨[], [("sync_1", .jcompleted)], 1, 1⟩ :=
  c4_overlap_guard ⟨["sync_1"], [("sync_1", .jrunning)], 1, 1⟩ ⟨[], [], 0, 0⟩
    "sync_1" true (.finish "sync_1" true) (by decide)
    (fun key => ⟨by simp [runningLogCount], fun h => absurd h (by simp [runningLogCount])⟩)

/-- Claim C8: when the supervisor loop ends by total timeout, the judged
returncode is 0 exactly when the last-file verification over the filtered
manifest and the post-tool listing succeeds (so a forced kill alone is not a
failure), and a manifest without any file-bearing record verifies as true
trivially. -/
theorem c8_timeout_verify (cfg : DlConfig) (r : DlRun) (ms : Manifest) (d : Dir)
    (hsup : r.sup = .totalTimeout) (hnofile : ∀ m ∈ ms, m.file.truthy = false) :
    (dlReturncode cfg r = 0 ↔
      verifyDownloadComplete (dlFilteredMs cfg r) (dlDirTool cfg r) = true) ∧
    verifyDownloadComplete ms d = true := by
  constructor
  · have hred : dlReturncode cfg r =
        if verifyDownloadComplete (dlFilteredMs cfg r) (dlDirTool cfg r) then 0 else -1 := by
      unfold dlReturncode
      rw [hsup]
    rw [hred]
    by_cases hv : verifyDownloadComplete (dlFilteredMs cfg r) (dlDirTool cfg r) = true
    · rw [if_pos hv]
      exact iff_of_true rfl hv
    · rw [if_neg hv]
      exact iff_of_false (by decide) hv
  · unfold verifyDownloadComplete
    have hlast : lastFileMsg? ms = none := by
      unfold lastFileMsg?
      rw [List.find?_eq_none]
      intro m hm
      simp [hnofile m (List.mem_reverse.1 hm)]
    rw [hlast]

/-- Concrete run for the C8 witness: timeout kill, the single file-bearing
record present on disk under its canonical name. -/
def dlRunC : DlRun :=
  { manifest := [{ idLower := some 2, date := some 500, file := .str "b.jpg".toList }]
    priorManifests := []
    dirBefore := []
    toolWrites := [("2.jpg".toList, 9)]
    sup := .totalTimeout
    chatTs := none }

/-- Claim C8 witness: the timeout-killed run with the last file present is
judged returncode 0, and the empty manifest verifies trivially. -/
theorem c8_timeout_verify_w :
    dlReturncode {} dlRunC = 0 ∧ verifyDownloadComplete [] [] = true :=
  ⟨(c8_timeout_verify {} dlRunC [] [] rfl (by decide)).1.mpr (by decide),
   (c8_timeout_verify {} dlRunC [] [] rfl (by decide)).2⟩

/-- Concrete run for C1: one new file-bearing record, nothing on disk, the
tool writes the file and exits 0. -/
def dlRunA : DlRun :=
  { manifest := [{ idLower := some 1, date := some 1000, file := .str "a.jpg".toList }]
    priorManifests := []
    dirBefore := []
    toolWrites := [("a.jpg".toList, 7)]
    sup := .naturalExit 0
    chatTs := none }

/-- Claim C1 (code bug): a run whose external tool is judged successful
(natural exit 0, tool actually invoked) transiently finalizes the DownloadRun
as completed, but the completion log line at core.py line 574 reads the name
files_count, which is assigned nowhere in download_from_export and exists
neither as a module global nor a builtin; the resulting NameError is caught
by the catch-all handler, which re-finalizes the record as failed and returns
False - contradicting the claimed completed finalization and True return. -/
theorem c1_success_path_name_error :
    successLogOk = false ∧
    dlReturncode {} dlRunA = 0 ∧
    dlFilterRes {} dlRunA ≠ .allDownloaded ∧
    (downloadFromExport {} dlRunA).retVal = false ∧
    ((downloadFromExport {} dlRunA).updates.map (fun u => u.status)) =
      [.running, .completed, .failed] := by decide

/-- Concrete run for the C2 counterexample: checkpoint 900, but the export
manifest being downloaded is an old one whose only confirmed-on-disk record
has timestamp 400. -/
def dlRunB : DlRun :=
  { manifest := [{ idLower := some 1, date := some 400, file := .str "a.jpg".toList },
                 { idLower := some 2, date := some 500, file := .str "b.jpg".toList }]
    priorManifests := []
    dirBefore := [("1.jpg".toList, 3)]
    toolWrites := []
    sup := .naturalExit 0
    chatTs := some 900 }

/-- Claim C2 counterexample: a judged-successful download over an old export
manifest rewrites the checkpoint from 900 down to 400 - core.py line 566
assigns max_downloaded_timestamp unconditionally, with no lower clamp at the
previous checkpoint, so the sequence of runs is not monotonically
non-decreasing. -/
theorem c2_checkpoint_regresses :
    dlRunB.chatTs = some 900 ∧
    (downloadFromExport {} dlRunB).chatTsAfter = some 400 ∧
    ((400 : Int) < 900) := by decide

/-- Claim C2 (amended): the checkpoint after a run is its max confirmed
timestamp when that is truthy - which can be below the previous checkpoint
for an old manifest - and unchanged otherwise; in particular the checkpoint
never decreases across a run whenever every truthy confirmed-timestamp
candidate of that run is at least the current checkpoint (as in the normal
flow, where the export window starts above the checkpoint). -/
theorem c2_checkpoint_conditional_monotone (cfg : DlConfig) (r : DlRun) (s : Int)
    (hs : r.chatTs = some s)
    (h : ∀ t, dlMaxTs cfg r = some t → t ≠ 0 → s ≤ t) :
    (∃ s2, (downloadFromExport cfg r).chatTsAfter = some s2 ∧ s ≤ s2) ∧
    (intTruthy (dlMaxTs cfg r) = false →
      (downloadFromExport cfg r).chatTsAfter = r.chatTs) := by
  constructor
  case right =>
    intro hfalse
    simp only [downloadFromExport, countFiles]
    by_cases hf : dlFilterRes cfg r = .allDownloaded
    · rw [if_pos hf]
    · rw [if_neg hf]
      by_cases hr : dlReturncode cfg r = 0
      · rw [if_pos hr, successLogOk_eq_false]
        simp only [Bool.false_eq_true, if_false]
        rw [if_neg (by simp [hfalse])]
      · rw [if_neg hr]
  simp only [downloadFromExport, countFiles]
  by_cases hf : dlFilterRes cfg r = .allDownloaded
  · rw [if_pos hf]
    exact ⟨s, hs, le_refl s⟩
  · rw [if_neg hf]
    by_cases hr : dlReturncode cfg r = 0
    · rw [if_pos hr, successLogOk_eq_false]
      simp only [Bool.false_eq_true, if_false]
      by_cases hm : intTruthy (dlMaxTs cfg r)
      · cases hmt : dlMaxTs cfg r with
        | none =>
          rw [hmt] at hm
          exact absurd hm (by decide)
        | some t =>
          have ht0 : t ≠ 0 := by
            rw [hmt] at hm
            simpa [intTruthy] using hm
          refine ⟨t, ?_, h t hmt ht0⟩
          simp [intTruthy, ht0]
      · refine ⟨s, ?_, le_refl s⟩
        rw [if_neg hm]
        exact hs
    · rw [if_neg hr]
      exact ⟨s, hs, le_refl s⟩

/-- Concrete run for the C2 witness: checkpoint 100, the confirmed max
timestamp of the new manifest is 400. -/
def dlRunD : DlRun :=
  { manifest := [{ idLower := some 1, date := some 400, file := .str "a.jpg".toList }]
    priorManifests := []
    dirBefore := []
    toolWrites := [("a.jpg".toList, 7)]
    sup := .naturalExit 0
    chatTs := some 100 }

/-- Claim C2 witness: the conditional monotonicity applied at the concrete
run with checkpoint 100 and confirmed max 400. -/
theorem c2_checkpoint_conditional_monotone_w :
    (∃ s2, (downloadFromExport {} dlRunD).chatTsAfter = some s2 ∧ (100 : Int) ≤ s2) ∧
    (intTruthy (dlMaxTs {} dlRunD) = false →
      (downloadFromExport {} dlRunD).chatTsAfter = dlRunD.chatTs) :=
  c2_checkpoint_conditional_monotone {} dlRunD 100 rfl (by
    intro t ht hnz
    rw [(by decide : dlMaxTs {} dlRunD = some 400)] at ht
    cases ht
    decide)

/-- Claim C7: every completed-status update written by download_from_export
records files_count equal to the file count of the destination after the run
minus the count before, and total_size_bytes equal to the corresponding byte
delta, and the files delta is never negative (renames preserve the listing
size, the tool only adds files). -/
theorem c7_delta_accounting (cfg : DlConfig) (r : DlRun) (u : DlUpdate) (v : Int)
    (hu : u ∈ (downloadFromExport cfg r).updates) (hc : u.status = .completed)
    (hv : u.files_count = some v) :
    u.files_count =
      some (((downloadFromExport cfg r).dirAfter.length : Int) - (r.dirBefore.length : Int)) ∧
    u.total_size_bytes =
      some ((sizeSum (downloadFromExport cfg r).dirAfter : Int) - (sizeSum r.dirBefore : Int)) ∧
    0 ≤ v := by
  simp only [downloadFromExport, countFiles] at hu ⊢
  by_cases hf : dlFilterRes cfg r = .allDownloaded
  · rw [if_pos hf] at hu ⊢
    simp only [List.mem_singleton] at hu
    subst hu
    simp only [Option.some.injEq] at hv
    have hlen : (dlDirPre cfg r).length = r.dirBefore.length := dlDirPre_length cfg r
    have hsz : sizeSum (dlDirPre cfg r) = sizeSum r.dirBefore := dlDirPre_sizeSum cfg r
    refine ⟨?_, ?_, by omega⟩
    · simp [hlen]
    · simp [hsz]
  · rw [if_neg hf] at hu ⊢
    by_cases hr : dlReturncode cfg r = 0
    · rw [if_pos hr, successLogOk_eq_false] at hu ⊢
      simp only [Bool.false_eq_true, if_false] at hu ⊢
      simp only [List.mem_cons, List.mem_singleton, List.not_mem_nil, or_false] at hu
      rcases hu with hu | hu | hu
      · subst hu
        cases hc
      · subst hu
        simp only [Option.some.injEq] at hv
        have hlen := dlDirFinal_length cfg r
        refine ⟨rfl, rfl, ?_⟩
        rw [← hv]
        have : (r.dirBefore.length : Int) ≤ ((dlDirFinal cfg r).length : Int) := by
          rw [hlen]
          push_cast
          omega
        omega
      · subst hu
        cases hc
    · rw [if_neg hr] at hu ⊢
      simp only [List.mem_cons, List.not_mem_nil, or_false, List.mem_singleton] at hu
      rcases hu with hu | hu <;> subst hu <;> cases hc

/-- Concrete run for the C7 witness: empty destination before, one file of 7
bytes written by the tool. -/
def dlRunE : DlRun :=
  { manifest := [{ idLower := some 3, date := some 1200, file := .str "c.jpg".toList }]
    priorManifests := []
    dirBefore := []
    toolWrites := [("c.jpg".toList, 7)]
    sup := .naturalExit 0
    chatTs := none }

/-- Claim C7 witness: the completed update of the concrete run records
files_count 1 = 1 - 0 and 7 bytes, a nonnegative delta. -/
theorem c7_delta_accounting_w :
    (({ status := .completed, files_count := some 1,
        total_size_bytes := some 7 } : DlUpdate)).files_count =
      some (((downloadFromExport {} dlRunE).dirAfter.length : Int) -
        (dlRunE.dirBefore.length : Int)) ∧
    (({ status := .completed, files_count := some 1,
        total_size_bytes := some 7 } : DlUpdate)).total_size_bytes =
      some ((sizeSum (downloadFromExport {} dlRunE).dirAfter : Int) -
        (sizeSum dlRunE.dirBefore : Int)) ∧
    (0 : Int) ≤ 1 :=
  c7_delta_accounting {} dlRunE
    { status := .completed, files_count := some 1, total_size_bytes := some 7 } 1
    (by decide) rfl rfl

/-- Claim C9 counterexample: record 497 has original file video.mp4, record
10 has original file 97.mp4.  The first application renames video.mp4 to
497.mp4; the second application matches 497.mp4 against the suffix 97.mp4
and renames it again (to 10.mp4) - the second application renames 1 file,
not 0. -/
theorem c9_rename_not_idempotent :
    (renameFiles
        [{ idLower := some 497, file := .str "video.mp4".toList },
         { idLower := some 10, file := .str "97.mp4".toList }]
        [("video.mp4".toList, 5)]).1 = 1 ∧
    (renameFiles
        [{ idLower := some 497, file := .str "video.mp4".toList },
         { idLower := some 10, file := .str "97.mp4".toList }]
        (renameFiles
          [{ idLower := some 497, file := .str "video.mp4".toList },
           { idLower := some 10, file := .str "97.mp4".toList }]
          [("video.mp4".toList, 5)]).2).1 ≠ 0 := by decide

/-- A file of the directory is stable under the rename pass: either no map
entry matches it, or the collision-resolved target is its own name. -/
def renameStable (ms : Manifest) (d : Dir) (f : FName) : Prop :=
  ¬ intTruthy (matchMsg (fileToId ms) f) = true ∨
    resolveName (d.map (·.1)) f ((matchMsg (fileToId ms) f).getD 0) (pathSuffix f) = f

theorem foldl_renameOne_stable (fti : List (FName × Int)) (D : Dir)
    (hst : ∀ f ∈ D, ¬ intTruthy (matchMsg fti f.1) = true ∨
      resolveName (D.map (·.1)) f.1 ((matchMsg fti f.1).getD 0) (pathSuffix f.1) = f.1) :
    ∀ (l : List (FName × Nat)) (c : Nat), (∀ f ∈ l, f ∈ D) →
      l.foldl (renameOne fti) (c, D) = (c, D) := by
  intro l
  induction l with
  | nil =>
    intro c _
    rfl
  | cons f rest ih =>
    intro c hsub
    simp only [List.foldl_cons]
    have hstep : renameOne fti (c, D) f = (c, D) := by
      unfold renameOne
      by_cases hm : intTruthy (matchMsg fti f.1)
      · rw [if_pos hm]
        rcases hst f (hsub f (List.mem_cons_self f rest)) with hno | hself
        · exact absurd hm hno
        · simp only
          rw [if_neg (fun hne => hne hself)]
      · rw [if_neg hm]
    rw [hstep]
    exact ih c (fun g hg => hsub g (List.mem_cons_of_mem f hg))

/-- Claim C9 (amended): the second application renames 0 files and leaves the
directory unchanged provided every file present after the first application
is stable - matched by no map entry, or resolving to its own name.  The side
condition is forced by the counterexample: it fails when the original
filename of one record is a suffix of the canonical name of another. -/
theorem c9_second_pass_stable (ms : Manifest) (d : Dir)
    (hst : ∀ f ∈ (renameFiles ms d).2, renameStable ms (renameFiles ms d).2 f.1) :
    renameFiles ms (renameFiles ms d).2 = (0, (renameFiles ms d).2) := by
  unfold renameStable at hst
  generalize hD : (renameFiles ms d).2 = D at hst ⊢
  unfold renameFiles
  by_cases hem : (fileToId ms).isEmpty
  · rw [if_pos hem]
  · rw [if_neg hem]
    exact foldl_renameOne_stable (fileToId ms) D hst D 0 (fun f hf => hf)

/-- Claim C9 witness: one record (id 1, file a.jpg) already renamed to 1.jpg
by the first pass; the second pass renames nothing, leaving the directory as
it is. -/
theorem c9_second_pass_stable_w :
    renameFiles [{ idLower := some 1, file := .str "a.jpg".toList }]
        (renameFiles [{ idLower := some 1, file := .str "a.jpg".toList }]
          [("a.jpg".toList, 2)]).2 =
      (0, (renameFiles [{ idLower := some 1, file := .str "a.jpg".toList }]
          [("a.jpg".toList, 2)]).2) :=
  c9_second_pass_stable [{ idLower := some 1, file := .str "a.jpg".toList }]
    [("a.jpg".toList, 2)] (by
      intro f hf
      simp only [show (renameFiles [{ idLower := some 1, file := .str "a.jpg".toList }]
          [("a.jpg".toList, 2)]).2 = [("1.jpg".toList, 2)] from by decide,
        List.mem_singleton] at hf
      subst hf
      left
      decide)
